import Mathlib

/-!
Verification of the ROI mask pooling forward kernel
(`src/caffe/layers/roi_mask_pooling_layer.cpp`, `ROIMaskPoolingLayer::Forward_cpu`).

Modelling conventions:
* `Dtype` (a floating-point scalar in the source) is modelled as `ℚ`; all the
  geometry here is exact arithmetic on the stored coordinates.
* The `-FLT_MAX` sentinel that `caffe_set` writes into `top_data` before the
  max search is modelled as `⊥ : WithBot ℚ` (a value below every feature value),
  so a pooled cell holds `WithBot ℚ`.
* `std::round` rounds half away from zero (`roundQ`); a float-to-int
  `static_cast` truncates toward zero (`truncQ`); `static_cast<int>(floor x)`
  and `static_cast<int>(ceil x)` are `⌊x⌋` and `⌈x⌉` since the argument is
  already integral.
* The flat ROI buffer `bottom_rois` (five scalars per ROI, advanced by
  `bottom[1]->offset(1) = 5` each iteration) is a function `ℕ → ℚ`; the feature
  blob `bottom[0]` is indexed `(num, channel, row, col)` through its shape, as
  the pointer arithmetic `offset(...)` does on contiguous storage.
* The `CHECK_GE`/`CHECK_LT` on the batch index aborts the whole call, so the
  forward pass returns `Option`: `none` models the aborted call (no output).
-/

/-- Configuration scalars read from `ROIMaskPoolingParameter` in `LayerSetUp`. -/
structure Config where
  pooled_h : ℕ
  pooled_w : ℕ
  spatial_scale : ℚ
  spatial_shift : ℚ
  half_part : ℤ
  roi_scale : ℚ
  mask_scale : ℚ

/-- The bottom feature blob: shape `(num, channels, height, width)` plus the
stored values, read by `(batch, channel, row, col)`. -/
structure FeatureMap where
  num : ℕ
  channels : ℕ
  height : ℕ
  width : ℕ
  data : ℕ → ℕ → ℕ → ℕ → ℚ

/-- One flat five-scalar ROI record, in the order the buffer stores it:
`f0 = bottom_rois[0]`, ..., `f4 = bottom_rois[4]`. -/
structure RoiRecord where
  f0 : ℚ
  f1 : ℚ
  f2 : ℚ
  f3 : ℚ
  f4 : ℚ

/-- Float-to-int conversion (`int roi_batch_ind = bottom_rois[0]`):
truncation toward zero. -/
def truncQ (q : ℚ) : ℤ := if 0 ≤ q then ⌊q⌋ else ⌈q⌉

/-- `std::round`: round half away from zero (the result is integral, so the
subsequent int conversion is exact). -/
def roundQ (q : ℚ) : ℤ := if 0 ≤ q then ⌊q + 1/2⌋ else ⌈q - 1/2⌉

/-- `int roi_batch_ind = bottom_rois[0];` -/
def batchIdx (r : RoiRecord) : ℤ := truncQ r.f0

/-- `Dtype x1 = bottom_rois[1];` -/
def x1Of (r : RoiRecord) : ℚ := r.f1

/-- `Dtype x2 = bottom_rois[2];` -/
def x2Of (r : RoiRecord) : ℚ := r.f2

/-- `Dtype y1 = bottom_rois[3];` -/
def y1Of (r : RoiRecord) : ℚ := r.f3

/-- `Dtype y2 = bottom_rois[4];` -/
def y2Of (r : RoiRecord) : ℚ := r.f4

/-- `Dtype xc = (x1 + x2) / 2;` -/
def xcOf (r : RoiRecord) : ℚ := (x1Of r + x2Of r) / 2

/-- `Dtype yc = (y1 + y2) / 2;` -/
def ycOf (r : RoiRecord) : ℚ := (y1Of r + y2Of r) / 2

/-- `Dtype w = x2 - x1;` -/
def wOf (r : RoiRecord) : ℚ := x2Of r - x1Of r

/-- `Dtype h = y2 - y1;` -/
def hOf (r : RoiRecord) : ℚ := y2Of r - y1Of r

/-- `xx1 = xc - w * roi_scale_ / 2`, then `case 2: xx1 = xc`. -/
def xx1Of (cfg : Config) (r : RoiRecord) : ℚ :=
  if cfg.half_part = 2 then xcOf r else xcOf r - wOf r * cfg.roi_scale / 2

/-- `xx2 = xc + w * roi_scale_ / 2`, then `case 1: xx2 = xc`. -/
def xx2Of (cfg : Config) (r : RoiRecord) : ℚ :=
  if cfg.half_part = 1 then xcOf r else xcOf r + wOf r * cfg.roi_scale / 2

/-- `yy1 = yc - h * roi_scale_ / 2`, then `case 4: yy1 = yc`. -/
def yy1Of (cfg : Config) (r : RoiRecord) : ℚ :=
  if cfg.half_part = 4 then ycOf r else ycOf r - hOf r * cfg.roi_scale / 2

/-- `yy2 = yc + h * roi_scale_ / 2`, then `case 3: yy2 = yc`. -/
def yy2Of (cfg : Config) (r : RoiRecord) : ℚ :=
  if cfg.half_part = 3 then ycOf r else ycOf r + hOf r * cfg.roi_scale / 2

/-- `int roi_start_w = round(xx1 * spatial_scale_ + spatial_shift_);` -/
def roi_start_w (cfg : Config) (r : RoiRecord) : ℤ :=
  roundQ (xx1Of cfg r * cfg.spatial_scale + cfg.spatial_shift)

/-- `int roi_start_h = round(yy1 * spatial_scale_ + spatial_shift_);` -/
def roi_start_h (cfg : Config) (r : RoiRecord) : ℤ :=
  roundQ (yy1Of cfg r * cfg.spatial_scale + cfg.spatial_shift)

/-- `int roi_end_w = round(xx2 * spatial_scale_ + spatial_shift_);` -/
def roi_end_w (cfg : Config) (r : RoiRecord) : ℤ :=
  roundQ (xx2Of cfg r * cfg.spatial_scale + cfg.spatial_shift)

/-- `int roi_end_h = round(yy2 * spatial_scale_ + spatial_shift_);` -/
def roi_end_h (cfg : Config) (r : RoiRecord) : ℤ :=
  roundQ (yy2Of cfg r * cfg.spatial_scale + cfg.spatial_shift)

/-- `Dtype mx1 = xc - w * mask_scale_ / 2.0;` -/
def mx1Of (cfg : Config) (r : RoiRecord) : ℚ := xcOf r - wOf r * cfg.mask_scale / 2

/-- `Dtype mx2 = xc + w * mask_scale_ / 2.0;` -/
def mx2Of (cfg : Config) (r : RoiRecord) : ℚ := xcOf r + wOf r * cfg.mask_scale / 2

/-- `Dtype my1 = yc - h * mask_scale_ / 2.0;` -/
def my1Of (cfg : Config) (r : RoiRecord) : ℚ := ycOf r - hOf r * cfg.mask_scale / 2

/-- `Dtype my2 = yc + h * mask_scale_ / 2.0;` -/
def my2Of (cfg : Config) (r : RoiRecord) : ℚ := ycOf r + hOf r * cfg.mask_scale / 2

/-- `int mask_start_w = round(mx1 * spatial_scale_ + spatial_shift_);` -/
def mask_start_w (cfg : Config) (r : RoiRecord) : ℤ :=
  roundQ (mx1Of cfg r * cfg.spatial_scale + cfg.spatial_shift)

/-- `int mask_start_h = round(my1 * spatial_scale_ + spatial_shift_);` -/
def mask_start_h (cfg : Config) (r : RoiRecord) : ℤ :=
  roundQ (my1Of cfg r * cfg.spatial_scale + cfg.spatial_shift)

/-- `int mask_end_w = round(mx2 * spatial_scale_ + spatial_shift_);` -/
def mask_end_w (cfg : Config) (r : RoiRecord) : ℤ :=
  roundQ (mx2Of cfg r * cfg.spatial_scale + cfg.spatial_shift)

/-- `int mask_end_h = round(my2 * spatial_scale_ + spatial_shift_);` -/
def mask_end_h (cfg : Config) (r : RoiRecord) : ℤ :=
  roundQ (my2Of cfg r * cfg.spatial_scale + cfg.spatial_shift)

/-- `int roi_height = max(roi_end_h - roi_start_h + 1, 1);` -/
def roi_height (cfg : Config) (r : RoiRecord) : ℤ :=
  max (roi_end_h cfg r - roi_start_h cfg r + 1) 1

/-- `int roi_width = max(roi_end_w - roi_start_w + 1, 1);` -/
def roi_width (cfg : Config) (r : RoiRecord) : ℤ :=
  max (roi_end_w cfg r - roi_start_w cfg r + 1) 1

/-- `bin_size_h = roi_height / pooled_height_` (real-valued). -/
def bin_size_h (cfg : Config) (r : RoiRecord) : ℚ :=
  (roi_height cfg r : ℚ) / (cfg.pooled_h : ℚ)

/-- `bin_size_w = roi_width / pooled_width_` (real-valued). -/
def bin_size_w (cfg : Config) (r : RoiRecord) : ℚ :=
  (roi_width cfg r : ℚ) / (cfg.pooled_w : ℚ)

/-- `hstart = min(max(floor(ph * bin_size_h) + roi_start_h, 0), height_)`. -/
def binHstart (cfg : Config) (fm : FeatureMap) (r : RoiRecord) (ph : ℕ) : ℤ :=
  min (max (⌊(ph : ℚ) * bin_size_h cfg r⌋ + roi_start_h cfg r) 0) (fm.height : ℤ)

/-- `hend = min(max(ceil((ph + 1) * bin_size_h) + roi_start_h, 0), height_)`. -/
def binHend (cfg : Config) (fm : FeatureMap) (r : RoiRecord) (ph : ℕ) : ℤ :=
  min (max (⌈((ph : ℚ) + 1) * bin_size_h cfg r⌉ + roi_start_h cfg r) 0) (fm.height : ℤ)

/-- `wstart = min(max(floor(pw * bin_size_w) + roi_start_w, 0), width_)`. -/
def binWstart (cfg : Config) (fm : FeatureMap) (r : RoiRecord) (pw : ℕ) : ℤ :=
  min (max (⌊(pw : ℚ) * bin_size_w cfg r⌋ + roi_start_w cfg r) 0) (fm.width : ℤ)

/-- `wend = min(max(ceil((pw + 1) * bin_size_w) + roi_start_w, 0), width_)`. -/
def binWend (cfg : Config) (fm : FeatureMap) (r : RoiRecord) (pw : ℕ) : ℤ :=
  min (max (⌈((pw : ℚ) + 1) * bin_size_w cfg r⌉ + roi_start_w cfg r) 0) (fm.width : ℤ)

/-- `bool is_empty = (hend <= hstart) || (wend <= wstart);` -/
abbrev isEmptyBin (cfg : Config) (fm : FeatureMap) (r : RoiRecord) (ph pw : ℕ) : Prop :=
  binHend cfg fm r ph ≤ binHstart cfg fm r ph ∨ binWend cfg fm r pw ≤ binWstart cfg fm r pw

/-- The cells `(h, w)` scanned by the two inner loops
`for h in [hstart, hend) { for w in [wstart, wend) }`, in row-major order. -/
def cellList (hs he ws we : ℤ) : List (ℤ × ℤ) :=
  (List.range (he - hs).toNat).flatMap fun (i : ℕ) =>
    (List.range (we - ws).toNat).map fun (j : ℕ) => (hs + (i : ℤ), ws + (j : ℤ))

/-- The scan window of output cell `(ph, pw)`. -/
def cellListOf (cfg : Config) (fm : FeatureMap) (r : RoiRecord) (ph pw : ℕ) :
    List (ℤ × ℤ) :=
  cellList (binHstart cfg fm r ph) (binHend cfg fm r ph)
    (binWstart cfg fm r pw) (binWend cfg fm r pw)

/-- The inclusive mask-rectangle test
`w >= mask_start_w && w <= mask_end_w && h >= mask_start_h && h <= mask_end_h`
on a cell `(h, w)`. -/
abbrev MaskCovers (cfg : Config) (r : RoiRecord) (cell : ℤ × ℤ) : Prop :=
  mask_start_w cfg r ≤ cell.2 ∧ cell.2 ≤ mask_end_w cfg r ∧
    mask_start_h cfg r ≤ cell.1 ∧ cell.1 ≤ mask_end_h cfg r

/-- `Dtype value = batch_data[index]; if (isMask) { if (in mask rect) value = 0; }`
where `isMask = mask_scale_ > 0.0`. -/
def maskedVal (cfg : Config) (fm : FeatureMap) (r : RoiRecord) (c : ℕ)
    (cell : ℤ × ℤ) : ℚ :=
  if 0 < cfg.mask_scale ∧ MaskCovers cfg r cell then 0
  else fm.data (batchIdx r).toNat c cell.1.toNat cell.2.toNat

/-- `const int index = h * width_ + w;` -/
def flatIdx (fm : FeatureMap) (cell : ℤ × ℤ) : ℤ := cell.1 * (fm.width : ℤ) + cell.2

/-- One step of the max search:
`if (value > top_data[pool_index]) { top_data[pool_index] = value;
argmax_data[pool_index] = index; }`. The running value is `WithBot ℚ`, `⊥`
standing for the `-FLT_MAX` the buffer was initialised with. -/
def binStep {α : Type} (f : α → ℚ) (g : α → ℤ) (st : WithBot ℚ × ℤ) (x : α) :
    WithBot ℚ × ℤ :=
  if st.1 < (f x : WithBot ℚ) then ((f x : WithBot ℚ), g x) else st

/-- The two inner loops of the max search, starting from the initialised
buffers (`-FLT_MAX` value, `-1` argmax). -/
def binFold {α : Type} (f : α → ℚ) (g : α → ℤ) (L : List α) : WithBot ℚ × ℤ :=
  L.foldl (binStep f g) (⊥, -1)

/-- The final `(top_data[pool_index], argmax_data[pool_index])` of one output
cell `(ph, pw)` of channel `c`: the empty-bin branch writes `(0, -1)` and the
loops are skipped; otherwise the loops run over the whole clamped window. -/
def binResult (cfg : Config) (fm : FeatureMap) (r : RoiRecord) (c ph pw : ℕ) :
    WithBot ℚ × ℤ :=
  if isEmptyBin cfg fm r ph pw then (((0 : ℚ) : WithBot ℚ), -1)
  else binFold (maskedVal cfg fm r c) (flatIdx fm) (cellListOf cfg fm r ph pw)

/-- One ROI's slice of `top[0]`: `channels × pooled_h × pooled_w` pooled values. -/
def roiOut (cfg : Config) (fm : FeatureMap) (r : RoiRecord) :
    List (List (List (WithBot ℚ))) :=
  (List.range fm.channels).map fun c =>
    (List.range cfg.pooled_h).map fun ph =>
      (List.range cfg.pooled_w).map fun pw => (binResult cfg fm r c ph pw).1

/-- One ROI's slice of `max_idx_`: `channels × pooled_h × pooled_w` argmax
indices. -/
def roiArg (cfg : Config) (fm : FeatureMap) (r : RoiRecord) :
    List (List (List ℤ)) :=
  (List.range fm.channels).map fun c =>
    (List.range cfg.pooled_h).map fun ph =>
      (List.range cfg.pooled_w).map fun pw => (binResult cfg fm r c ph pw).2

/-- `bottom_rois` advanced by `bottom[1]->offset(1) = 5` per ROI: the `n`-th
five-scalar record of the flat buffer. -/
def recordOf (rois : ℕ → ℚ) (n : ℕ) : RoiRecord :=
  ⟨rois (5 * n), rois (5 * n + 1), rois (5 * n + 2), rois (5 * n + 3), rois (5 * n + 4)⟩

/-- The per-ROI loop with the `CHECK_GE(roi_batch_ind, 0)` /
`CHECK_LT(roi_batch_ind, batch_size)` abort: processing stops with no output
as soon as a bad ROI is reached. -/
def forwardList (cfg : Config) (fm : FeatureMap) (rois : ℕ → ℚ) :
    List ℕ → Option (List (List (List (List (WithBot ℚ))) × List (List (List ℤ))))
  | [] => some []
  | n :: rest =>
    if 0 ≤ batchIdx (recordOf rois n) ∧ batchIdx (recordOf rois n) < (fm.num : ℤ) then
      match forwardList cfg fm rois rest with
      | some l => some ((roiOut cfg fm (recordOf rois n), roiArg cfg fm (recordOf rois n)) :: l)
      | none => none
    else none

/-- `Forward_cpu`: `none` models the aborted call (a `CHECK` failure produces
no output at all); otherwise the pooled outputs and argmax indices for all
`num_rois` ROIs, produced together. -/
def forward (cfg : Config) (fm : FeatureMap) (rois : ℕ → ℚ) (numRois : ℕ) :
    Option (List (List (List (List (WithBot ℚ)))) × List (List (List (List ℤ)))) :=
  (forwardList cfg fm rois (List.range numRois)).map fun l =>
    (l.map Prod.fst, l.map Prod.snd)

/-- Shape of a `channels × pooled_h × pooled_w` grid. -/
def Grid3Shape {α : Type} (x : List (List (List α))) (c p q : ℕ) : Prop :=
  x.length = c ∧ ∀ y ∈ x, y.length = p ∧ ∀ z ∈ y, z.length = q

/-- The decoded cell `(row, col) = (argmax div width, argmax mod width)` of a
stored argmax index. -/
def argCell (fm : FeatureMap) (a : ℤ) : ℤ × ℤ :=
  ((a.toNat / fm.width : ℕ), (a.toNat % fm.width : ℕ))

/-- Configuration of the partially-masked counterexample: `1 × 1` pooled grid,
identity spatial transform, `roi_scale = 1`, `mask_scale = 1/5`. -/
def cfgA : Config := ⟨1, 1, 1, 0, 0, 1, 1/5⟩

/-- Feature map of the partially-masked counterexample: one `1 × 2` channel,
value `5` at column 0 and `-3` at column 1. -/
def fmA : FeatureMap := ⟨1, 1, 1, 2, fun _ _ _ w => if w = 0 then 5 else -3⟩

/-- ROI of the counterexamples: `batch 0`, x-bounds `-2/5, 3/5`, y-bounds
`-2/5, 3/5`, so the window covers both columns but the mask only column 0. -/
def rA : RoiRecord := ⟨0, -2/5, 3/5, -2/5, 3/5⟩

/-- Configuration of the fully-masked counterexample: as `cfgA` but with
`mask_scale = 1`, so the mask rectangle covers the whole window. -/
def cfgB : Config := ⟨1, 1, 1, 0, 0, 1, 1⟩

/-- Feature map of the fully-masked counterexample (same data as `fmA`). -/
def fmB : FeatureMap := ⟨1, 1, 1, 2, fun _ _ _ w => if w = 0 then 5 else -3⟩

/-- ROI of the fully-masked counterexample (same geometry as `rA`). -/
def rB : RoiRecord := ⟨0, -2/5, 3/5, -2/5, 3/5⟩

/-- Benign witness configuration: `1 × 1` pooled grid, identity transform,
no masking. -/
def cfgW : Config := ⟨1, 1, 1, 0, 0, 1, 0⟩

/-- Benign witness feature map: one `1 × 1` channel holding `7`. -/
def fmW : FeatureMap := ⟨1, 1, 1, 1, fun _ _ _ _ => 7⟩

/-- Benign witness ROI: batch `0`, degenerate rectangle at the origin. -/
def rW : RoiRecord := ⟨0, 0, 0, 0, 0⟩

/-- Flat ROI buffer of the benign witness (all zeros). -/
def roisW : ℕ → ℚ := fun _ => 0

/-- Flat ROI buffer whose batch index `1` equals the batch size of `fmW`. -/
def roisB : ℕ → ℚ := fun _ => 1

/-- Witness configuration with the active `half_part = 1`. -/
def cfgW1 : Config := ⟨1, 1, 1, 0, 1, 1, 0⟩

/-- Witness configuration with the undocumented `half_part = 5`. -/
def cfgHP5 : Config := ⟨1, 1, 1, 0, 5, 1, 0⟩

/-- Ceiling in terms of floor, for concrete evaluation. -/
theorem ceil_eval (q : ℚ) : ⌈q⌉ = -⌊-q⌋ := by
  conv_lhs => rw [← neg_neg q]
  rw [Int.ceil_neg]

/-- Full characterisation of the max-search fold from an arbitrary running
state: either no cell beats the state (which is then returned unchanged), or
the result is the value/index of the first cell that strictly beats both the
initial state and every cell scanned before it, and is not beaten afterwards. -/
theorem foldl_binStep_spec {α : Type} (f : α → ℚ) (g : α → ℤ) (L : List α)
    (st : WithBot ℚ × ℤ) :
    (L.foldl (binStep f g) st = st ∧ ∀ x ∈ L, (f x : WithBot ℚ) ≤ st.1) ∨
    (∃ i, ∃ hi : i < L.length,
      L.foldl (binStep f g) st
          = ((f (L.get ⟨i, hi⟩) : WithBot ℚ), g (L.get ⟨i, hi⟩)) ∧
        st.1 < (f (L.get ⟨i, hi⟩) : WithBot ℚ) ∧
        (∀ j, ∀ hj : j < L.length, j < i → f (L.get ⟨j, hj⟩) < f (L.get ⟨i, hi⟩)) ∧
        (∀ j, ∀ hj : j < L.length, f (L.get ⟨j, hj⟩) ≤ f (L.get ⟨i, hi⟩))) := by
  induction L generalizing st with
  | nil => exact Or.inl ⟨rfl, by simp⟩
  | cons a t ih =>
    have hfold : (a :: t).foldl (binStep f g) st
        = t.foldl (binStep f g) (binStep f g st a) := rfl
    by_cases hlt : st.1 < (f a : WithBot ℚ)
    · have hstep : binStep f g st a = ((f a : WithBot ℚ), g a) := if_pos hlt
      rcases ih ((f a : WithBot ℚ), g a) with ⟨heq, hle⟩ | ⟨i, hi, heq, hgt, hfirst, hall⟩
      · refine Or.inr ⟨0, by simp, ?_, hlt, ?_, ?_⟩
        · rw [hfold, hstep]; exact heq
        · intro j hj hj0; omega
        · intro j hj
          match j, hj with
          | 0, _ => exact le_refl _
          | j + 1, hj =>
            have hj' : j < t.length := by simpa using hj
            exact WithBot.coe_le_coe.mp (hle (t.get ⟨j, hj'⟩) (List.get_mem t j hj'))
      · have hgt' : f a < f (t.get ⟨i, hi⟩) := WithBot.coe_lt_coe.mp hgt
        refine Or.inr ⟨i + 1, by simp only [List.length_cons]; omega, ?_, ?_, ?_, ?_⟩
        · rw [hfold, hstep]; exact heq
        · exact lt_trans hlt hgt
        · intro j hj hji
          match j, hj with
          | 0, _ => exact hgt'
          | j + 1, hj => exact hfirst j (by simpa using hj) (by omega)
        · intro j hj
          match j, hj with
          | 0, _ => exact le_of_lt hgt'
          | j + 1, hj => exact hall j (by simpa using hj)
    · have hstep : binStep f g st a = st := if_neg hlt
      have hle_a : (f a : WithBot ℚ) ≤ st.1 := not_lt.mp hlt
      rcases ih st with ⟨heq, hle⟩ | ⟨i, hi, heq, hgt, hfirst, hall⟩
      · refine Or.inl ⟨by rw [hfold, hstep]; exact heq, ?_⟩
        intro x hx
        rcases List.mem_cons.mp hx with rfl | hx
        · exact hle_a
        · exact hle x hx
      · have hgt'' : f a < f (t.get ⟨i, hi⟩) :=
          WithBot.coe_lt_coe.mp (lt_of_le_of_lt hle_a hgt)
        refine Or.inr ⟨i + 1, by simp only [List.length_cons]; omega, ?_, hgt, ?_, ?_⟩
        · rw [hfold, hstep]; exact heq
        · intro j hj hji
          match j, hj with
          | 0, _ => exact hgt''
          | j + 1, hj => exact hfirst j (by simpa using hj) (by omega)
        · intro j hj
          match j, hj with
          | 0, _ => exact le_of_lt hgt''
          | j + 1, hj => exact hall j (by simpa using hj)

/-- The max search over a non-empty scan list yields the value and index of
the first maximal cell: strictly greater than everything scanned before it,
at least everything else. -/
theorem binFold_spec {α : Type} (f : α → ℚ) (g : α → ℤ) (L : List α) (hL : L ≠ []) :
    ∃ i, ∃ hi : i < L.length,
      binFold f g L = ((f (L.get ⟨i, hi⟩) : WithBot ℚ), g (L.get ⟨i, hi⟩)) ∧
        (∀ j, ∀ hj : j < L.length, j < i → f (L.get ⟨j, hj⟩) < f (L.get ⟨i, hi⟩)) ∧
        (∀ j, ∀ hj : j < L.length, f (L.get ⟨j, hj⟩) ≤ f (L.get ⟨i, hi⟩)) := by
  rcases foldl_binStep_spec f g L (⊥, -1) with ⟨_, hle⟩ | ⟨i, hi, heq, _, hfirst, hall⟩
  · cases L with
    | nil => exact absurd rfl hL
    | cons a t =>
      have := hle a (List.mem_cons_self a t)
      simp at this
  · exact ⟨i, hi, heq, hfirst, hall⟩

/-- A cell is scanned iff it lies in the half-open window
`[hstart, hend) × [wstart, wend)`. -/
theorem mem_cellList {hs he ws we : ℤ} {cell : ℤ × ℤ} :
    cell ∈ cellList hs he ws we ↔
      hs ≤ cell.1 ∧ cell.1 < he ∧ ws ≤ cell.2 ∧ cell.2 < we := by
  obtain ⟨h, w⟩ := cell
  constructor
  · intro hx
    rw [cellList, List.mem_flatMap] at hx
    obtain ⟨i, hi, hx⟩ := hx
    rw [List.mem_map] at hx
    obtain ⟨j, hj, hx⟩ := hx
    rw [List.mem_range] at hi hj
    rw [Prod.mk.injEq] at hx
    obtain ⟨hh, hw⟩ := hx
    refine ⟨by omega, by omega, by omega, by omega⟩
  · rintro ⟨h1, h2, h3, h4⟩
    rw [cellList, List.mem_flatMap]
    refine ⟨(h - hs).toNat, by rw [List.mem_range]; omega, ?_⟩
    rw [List.mem_map]
    refine ⟨(w - ws).toNat, by rw [List.mem_range]; omega, ?_⟩
    rw [Prod.mk.injEq]
    constructor
    · omega
    · omega

/-- A non-degenerate window scans at least one cell. -/
theorem cellList_ne_nil {hs he ws we : ℤ} (h1 : hs < he) (h2 : ws < we) :
    cellList hs he ws we ≠ [] := by
  have : (hs, ws) ∈ cellList hs he ws we := by
    rw [mem_cellList]
    exact ⟨le_refl _, h1, le_refl _, h2⟩
  exact List.ne_nil_of_mem this

/-- Row-major order: the first scanned cell is `(hstart, wstart)`. -/
theorem cellList_eq_cons {hs he ws we : ℤ} (h1 : hs < he) (h2 : ws < we) :
    ∃ rest, cellList hs he ws we = (hs, ws) :: rest := by
  obtain ⟨n, hn⟩ : ∃ n, (he - hs).toNat = n + 1 := ⟨(he - hs).toNat - 1, by omega⟩
  obtain ⟨m, hm⟩ : ∃ m, (we - ws).toNat = m + 1 := ⟨(we - ws).toNat - 1, by omega⟩
  have hh : (cellList hs he ws we).head? = some (hs, ws) := by
    rw [cellList, hn, hm, List.range_succ_eq_map, List.range_succ_eq_map]
    simp
  cases hL : cellList hs he ws we with
  | nil => rw [hL] at hh; simp at hh
  | cons a t =>
    rw [hL] at hh
    simp only [List.head?_cons, Option.some.injEq] at hh
    exact ⟨t, by rw [hh]⟩

/-- The clamped window starts are never negative and the ends never exceed the
feature-map extent, so every scanned cell is a valid feature-map position. -/
theorem cellListOf_bounds {cfg : Config} {fm : FeatureMap} {r : RoiRecord}
    {ph pw : ℕ} {cell : ℤ × ℤ} (hcell : cell ∈ cellListOf cfg fm r ph pw) :
    0 ≤ cell.1 ∧ cell.1 < (fm.height : ℤ) ∧ 0 ≤ cell.2 ∧ cell.2 < (fm.width : ℤ) := by
  have h1 : 0 ≤ binHstart cfg fm r ph :=
    le_min (le_max_right _ _) (Int.natCast_nonneg _)
  have h2 : binHend cfg fm r ph ≤ (fm.height : ℤ) := min_le_right _ _
  have h3 : 0 ≤ binWstart cfg fm r pw :=
    le_min (le_max_right _ _) (Int.natCast_nonneg _)
  have h4 : binWend cfg fm r pw ≤ (fm.width : ℤ) := min_le_right _ _
  rw [cellListOf, mem_cellList] at hcell
  refine ⟨by omega, by omega, by omega, by omega⟩

/-- A geometrically non-empty bin scans a non-empty cell list. -/
theorem cellListOf_ne_nil {cfg : Config} {fm : FeatureMap} {r : RoiRecord}
    {ph pw : ℕ} (hne : ¬ isEmptyBin cfg fm r ph pw) :
    cellListOf cfg fm r ph pw ≠ [] := by
  rw [isEmptyBin] at hne
  push_neg at hne
  exact cellList_ne_nil hne.1 hne.2

/-- On a non-empty bin the stored pair is the masked value and flat index of
the first maximal cell of the scan list. -/
theorem binResult_spec (cfg : Config) (fm : FeatureMap) (r : RoiRecord)
    (c ph pw : ℕ) (hne : ¬ isEmptyBin cfg fm r ph pw) :
    ∃ i, ∃ hi : i < (cellListOf cfg fm r ph pw).length,
      binResult cfg fm r c ph pw
          = ((maskedVal cfg fm r c ((cellListOf cfg fm r ph pw).get ⟨i, hi⟩) : WithBot ℚ),
             flatIdx fm ((cellListOf cfg fm r ph pw).get ⟨i, hi⟩)) ∧
        (∀ j, ∀ hj : j < (cellListOf cfg fm r ph pw).length, j < i →
          maskedVal cfg fm r c ((cellListOf cfg fm r ph pw).get ⟨j, hj⟩)
            < maskedVal cfg fm r c ((cellListOf cfg fm r ph pw).get ⟨i, hi⟩)) ∧
        (∀ j, ∀ hj : j < (cellListOf cfg fm r ph pw).length,
          maskedVal cfg fm r c ((cellListOf cfg fm r ph pw).get ⟨j, hj⟩)
            ≤ maskedVal cfg fm r c ((cellListOf cfg fm r ph pw).get ⟨i, hi⟩)) := by
  rw [binResult, if_neg hne]
  exact binFold_spec _ _ _ (cellListOf_ne_nil hne)

/-- Decoding a flat index `h * width + w` of an in-range cell recovers the
cell by division and remainder. -/
theorem flatIdx_decode (fm : FeatureMap) {cell : ℤ × ℤ} (hh : 0 ≤ cell.1)
    (hw0 : 0 ≤ cell.2) (hwW : cell.2 < (fm.width : ℤ)) :
    0 ≤ flatIdx fm cell ∧
      (flatIdx fm cell).toNat / fm.width = cell.1.toNat ∧
      (flatIdx fm cell).toNat % fm.width = cell.2.toNat := by
  have hWpos : 0 < fm.width := by omega
  have hb : cell.2.toNat < fm.width := by omega
  have e : flatIdx fm cell = ((cell.1.toNat * fm.width + cell.2.toNat : ℕ) : ℤ) := by
    rw [flatIdx]
    push_cast [Int.toNat_of_nonneg hh, Int.toNat_of_nonneg hw0]
    ring
  refine ⟨by rw [e]; exact Int.natCast_nonneg _, ?_, ?_⟩
  · rw [e, Int.toNat_natCast, Nat.mul_comm, Nat.mul_add_div hWpos,
      Nat.div_eq_of_lt hb, Nat.add_zero]
  · rw [e, Int.toNat_natCast, Nat.mul_comm, Nat.mul_add_mod, Nat.mod_eq_of_lt hb]

/-- C2: for every output cell of a forward call, the argmax index is `-1` iff
the cell's clamped pooling window is empty, and whenever the argmax is `-1`
the pooled value is forced to `0` (never the `-infinity` sentinel). -/
theorem empty_bin_law (cfg : Config) (fm : FeatureMap) (r : RoiRecord)
    (c ph pw : ℕ) :
    ((binResult cfg fm r c ph pw).2 = -1 ↔ isEmptyBin cfg fm r ph pw) ∧
      ((binResult cfg fm r c ph pw).2 = -1 →
        (binResult cfg fm r c ph pw).1 = ((0 : ℚ) : WithBot ℚ)) := by
  by_cases hne : isEmptyBin cfg fm r ph pw
  · rw [binResult, if_pos hne]
    exact ⟨⟨fun _ => hne, fun _ => rfl⟩, fun _ => rfl⟩
  · obtain ⟨i, hi, heq, _, _⟩ := binResult_spec cfg fm r c ph pw hne
    have hmem := List.get_mem (cellListOf cfg fm r ph pw) i hi
    have hb := cellListOf_bounds hmem
    have hpos : 0 ≤ flatIdx fm ((cellListOf cfg fm r ph pw).get ⟨i, hi⟩) :=
      (flatIdx_decode fm hb.1 hb.2.2.1 hb.2.2.2).1
    have h2 : (binResult cfg fm r c ph pw).2
        = flatIdx fm ((cellListOf cfg fm r ph pw).get ⟨i, hi⟩) := by rw [heq]
    refine ⟨⟨fun h => ?_, fun h => absurd h hne⟩, fun h => ?_⟩
    · omega
    · omega

/-- C7: within every non-empty bin, the stored pair belongs to the first
maximal comparison value in row-major scan order: every cell scanned before
the winner compares strictly below it, and no cell in the window compares
above it (so a later equal value does not overwrite the argmax). -/
theorem first_max_tie_break (cfg : Config) (fm : FeatureMap) (r : RoiRecord)
    (c ph pw : ℕ) (hne : ¬ isEmptyBin cfg fm r ph pw) :
    ∃ i, ∃ hi : i < (cellListOf cfg fm r ph pw).length,
      binResult cfg fm r c ph pw
          = ((maskedVal cfg fm r c ((cellListOf cfg fm r ph pw).get ⟨i, hi⟩) : WithBot ℚ),
             flatIdx fm ((cellListOf cfg fm r ph pw).get ⟨i, hi⟩)) ∧
        (∀ j, ∀ hj : j < (cellListOf cfg fm r ph pw).length, j < i →
          maskedVal cfg fm r c ((cellListOf cfg fm r ph pw).get ⟨j, hj⟩)
            < maskedVal cfg fm r c ((cellListOf cfg fm r ph pw).get ⟨i, hi⟩)) ∧
        (∀ j, ∀ hj : j < (cellListOf cfg fm r ph pw).length,
          maskedVal cfg fm r c ((cellListOf cfg fm r ph pw).get ⟨j, hj⟩)
            ≤ maskedVal cfg fm r c ((cellListOf cfg fm r ph pw).get ⟨i, hi⟩)) :=
  binResult_spec cfg fm r c ph pw hne

/-- C1: for every ROI with in-range batch index and every output cell whose
clamped window is non-empty, the pooled value equals the feature value of the
`(batch, channel)` slice at the position decoded from the argmax
(`row = argmax div width`, `col = argmax mod width`) — except when masking
(`mask_scale > 0`) covers the winning cell, in which case the stored pooled
value is `0` even though the raw feature value there may differ. -/
theorem argmax_consistency (cfg : Config) (fm : FeatureMap) (r : RoiRecord)
    (c ph pw : ℕ) (_hb : 0 ≤ batchIdx r ∧ batchIdx r < (fm.num : ℤ))
    (hne : ¬ isEmptyBin cfg fm r ph pw) :
    0 ≤ (binResult cfg fm r c ph pw).2 ∧
      (¬ (0 < cfg.mask_scale ∧
            MaskCovers cfg r (argCell fm (binResult cfg fm r c ph pw).2)) →
        (binResult cfg fm r c ph pw).1
          = ((fm.data (batchIdx r).toNat c
                ((binResult cfg fm r c ph pw).2.toNat / fm.width)
                ((binResult cfg fm r c ph pw).2.toNat % fm.width) : ℚ) : WithBot ℚ)) ∧
      ((0 < cfg.mask_scale ∧
          MaskCovers cfg r (argCell fm (binResult cfg fm r c ph pw).2)) →
        (binResult cfg fm r c ph pw).1 = ((0 : ℚ) : WithBot ℚ)) := by
  obtain ⟨i, hi, heq, _, _⟩ := binResult_spec cfg fm r c ph pw hne
  have hmem := List.get_mem (cellListOf cfg fm r ph pw) i hi
  have hbnd := cellListOf_bounds hmem
  obtain ⟨hpos, hdiv, hmod⟩ := flatIdx_decode fm hbnd.1 hbnd.2.2.1 hbnd.2.2.2
  have h2 : (binResult cfg fm r c ph pw).2
      = flatIdx fm ((cellListOf cfg fm r ph pw).get ⟨i, hi⟩) := by rw [heq]
  have h1 : (binResult cfg fm r c ph pw).1
      = (maskedVal cfg fm r c ((cellListOf cfg fm r ph pw).get ⟨i, hi⟩) : WithBot ℚ) := by
    rw [heq]
  have hcell : argCell fm (binResult cfg fm r c ph pw).2
      = (cellListOf cfg fm r ph pw).get ⟨i, hi⟩ := by
    rw [h2, argCell]
    rw [Prod.mk.injEq]
    constructor
    · rw [hdiv]; omega
    · rw [hmod]; omega
  refine ⟨by omega, ?_, ?_⟩
  · intro hm
    rw [hcell] at hm
    rw [h1, maskedVal, if_neg hm, h2, hdiv, hmod]
  · intro hm
    rw [hcell] at hm
    rw [h1, maskedVal, if_pos hm]

/-- C5: for `half_part` 1 or 2 the rescaled ROI width used for pooling is
exactly half of the `half_part = 0` width, and for 3 or 4 the rescaled height
is exactly half of the `half_part = 0` height; in each case the retained half
has the ROI center as one of its bounds. -/
theorem half_part_law (cfg : Config) (r : RoiRecord) :
    ((cfg.half_part = 1 ∨ cfg.half_part = 2) →
      xx2Of cfg r - xx1Of cfg r
          = (xx2Of { cfg with half_part := 0 } r
              - xx1Of { cfg with half_part := 0 } r) / 2
        ∧ (xx1Of cfg r = xcOf r ∨ xx2Of cfg r = xcOf r)) ∧
    ((cfg.half_part = 3 ∨ cfg.half_part = 4) →
      yy2Of cfg r - yy1Of cfg r
          = (yy2Of { cfg with half_part := 0 } r
              - yy1Of { cfg with half_part := 0 } r) / 2
        ∧ (yy1Of cfg r = ycOf r ∨ yy2Of cfg r = ycOf r)) := by
  constructor
  · rintro (h | h)
    · refine ⟨?_, Or.inr ?_⟩
      · simp [xx1Of, xx2Of, h]
        try ring
      · simp [xx2Of, h]
    · refine ⟨?_, Or.inl ?_⟩
      · simp [xx1Of, xx2Of, h]
        try ring
      · simp [xx1Of, h]
  · rintro (h | h)
    · refine ⟨?_, Or.inr ?_⟩
      · simp [yy1Of, yy2Of, h]
        try ring
      · simp [yy2Of, h]
    · refine ⟨?_, Or.inl ?_⟩
      · simp [yy1Of, yy2Of, h]
        try ring
      · simp [yy1Of, h]

/-- C9: the forward pass reads the `n`-th flat five-scalar ROI record in the
order `(batch_index, x1, x2, y1, y2)` — the second and third scalars are the
two x-bounds and the fourth and fifth the two y-bounds (visible in the
identity configuration, where the rescaled bounds are the raw bounds) — and
the batch index is the float-to-int conversion of the first scalar. -/
theorem roi_read_order (cfg : Config) (rois : ℕ → ℚ) (n : ℕ)
    (h1 : cfg.roi_scale = 1) (h0 : cfg.half_part = 0) :
    batchIdx (recordOf rois n) = truncQ (rois (5 * n)) ∧
      x1Of (recordOf rois n) = rois (5 * n + 1) ∧
      x2Of (recordOf rois n) = rois (5 * n + 2) ∧
      y1Of (recordOf rois n) = rois (5 * n + 3) ∧
      y2Of (recordOf rois n) = rois (5 * n + 4) ∧
      xx1Of cfg (recordOf rois n) = rois (5 * n + 1) ∧
      xx2Of cfg (recordOf rois n) = rois (5 * n + 2) ∧
      yy1Of cfg (recordOf rois n) = rois (5 * n + 3) ∧
      yy2Of cfg (recordOf rois n) = rois (5 * n + 4) := by
  refine ⟨rfl, rfl, rfl, rfl, rfl, ?_, ?_, ?_, ?_⟩
  · simp [xx1Of, h0, h1, xcOf, wOf, x1Of, x2Of, recordOf]
    try ring
  · simp [xx2Of, h0, h1, xcOf, wOf, x1Of, x2Of, recordOf]
    try ring
  · simp [yy1Of, h0, h1, ycOf, hOf, y1Of, y2Of, recordOf]
    try ring
  · simp [yy2Of, h0, h1, ycOf, hOf, y1Of, y2Of, recordOf]
    try ring

/-- Under any `half_part` outside `{1, 2, 3, 4}` the rescaled bounds are the
`half_part = 0` bounds (the `switch` falls through to `default: break`). -/
theorem bounds_hp_default {cfg : Config} (r : RoiRecord)
    (h1 : cfg.half_part ≠ 1) (h2 : cfg.half_part ≠ 2)
    (h3 : cfg.half_part ≠ 3) (h4 : cfg.half_part ≠ 4) :
    xx1Of cfg r = xx1Of { cfg with half_part := 0 } r ∧
      xx2Of cfg r = xx2Of { cfg with half_part := 0 } r ∧
      yy1Of cfg r = yy1Of { cfg with half_part := 0 } r ∧
      yy2Of cfg r = yy2Of { cfg with half_part := 0 } r := by
  refine ⟨?_, ?_, ?_, ?_⟩
  · simp [xx1Of, h2]
  · simp [xx2Of, h1]
  · simp [yy1Of, h4]
  · simp [yy2Of, h3]

/-- The whole per-cell result is unchanged when `half_part` is replaced by `0`,
provided the current `half_part` is not one of the four active cases. -/
theorem binResult_hp_default {cfg : Config} (fm : FeatureMap) (r : RoiRecord)
    (h1 : cfg.half_part ≠ 1) (h2 : cfg.half_part ≠ 2)
    (h3 : cfg.half_part ≠ 3) (h4 : cfg.half_part ≠ 4) (c ph pw : ℕ) :
    binResult cfg fm r c ph pw = binResult { cfg with half_part := 0 } fm r c ph pw := by
  obtain ⟨e1, e2, e3, e4⟩ := bounds_hp_default r h1 h2 h3 h4
  have esw : roi_start_w cfg r = roi_start_w { cfg with half_part := 0 } r := by
    rw [roi_start_w, roi_start_w, e1]
  have esh : roi_start_h cfg r = roi_start_h { cfg with half_part := 0 } r := by
    rw [roi_start_h, roi_start_h, e3]
  have eew : roi_end_w cfg r = roi_end_w { cfg with half_part := 0 } r := by
    rw [roi_end_w, roi_end_w, e2]
  have eeh : roi_end_h cfg r = roi_end_h { cfg with half_part := 0 } r := by
    rw [roi_end_h, roi_end_h, e4]
  have erh : roi_height cfg r = roi_height { cfg with half_part := 0 } r := by
    rw [roi_height, roi_height, esh, eeh]
  have erw : roi_width cfg r = roi_width { cfg with half_part := 0 } r := by
    rw [roi_width, roi_width, esw, eew]
  have ebsh : bin_size_h cfg r = bin_size_h { cfg with half_part := 0 } r := by
    rw [bin_size_h, bin_size_h, erh]
  have ebsw : bin_size_w cfg r = bin_size_w { cfg with half_part := 0 } r := by
    rw [bin_size_w, bin_size_w, erw]
  have ehs : binHstart cfg fm r ph = binHstart { cfg with half_part := 0 } fm r ph := by
    rw [binHstart, binHstart, ebsh, esh]
  have ehe : binHend cfg fm r ph = binHend { cfg with half_part := 0 } fm r ph := by
    rw [binHend, binHend, ebsh, esh]
  have ews : binWstart cfg fm r pw = binWstart { cfg with half_part := 0 } fm r pw := by
    rw [binWstart, binWstart, ebsw, esw]
  have ewe : binWend cfg fm r pw = binWend { cfg with half_part := 0 } fm r pw := by
    rw [binWend, binWend, ebsw, esw]
  have emv : maskedVal cfg fm r c = maskedVal { cfg with half_part := 0 } fm r c := rfl
  rw [binResult, binResult]
  refine if_congr ?_ rfl ?_
  · show (binHend cfg fm r ph ≤ binHstart cfg fm r ph ∨
        binWend cfg fm r pw ≤ binWstart cfg fm r pw) ↔ _
    rw [ehs, ehe, ews, ewe]
  · rw [cellListOf, cellListOf, ehs, ehe, ews, ewe, emv]

/-- One ROI's pooled grid is unchanged when an inactive `half_part` is
replaced by `0`. -/
theorem roiOut_hp_default {cfg : Config} (fm : FeatureMap) (r : RoiRecord)
    (h1 : cfg.half_part ≠ 1) (h2 : cfg.half_part ≠ 2)
    (h3 : cfg.half_part ≠ 3) (h4 : cfg.half_part ≠ 4) :
    roiOut cfg fm r = roiOut { cfg with half_part := 0 } fm r := by
  have hb : ∀ c ph pw, (binResult cfg fm r c ph pw).1
      = (binResult { cfg with half_part := 0 } fm r c ph pw).1 := fun c ph pw => by
    rw [binResult_hp_default fm r h1 h2 h3 h4]
  simp only [roiOut, hb]

/-- One ROI's argmax grid is unchanged when an inactive `half_part` is
replaced by `0`. -/
theorem roiArg_hp_default {cfg : Config} (fm : FeatureMap) (r : RoiRecord)
    (h1 : cfg.half_part ≠ 1) (h2 : cfg.half_part ≠ 2)
    (h3 : cfg.half_part ≠ 3) (h4 : cfg.half_part ≠ 4) :
    roiArg cfg fm r = roiArg { cfg with half_part := 0 } fm r := by
  have hb : ∀ c ph pw, (binResult cfg fm r c ph pw).2
      = (binResult { cfg with half_part := 0 } fm r c ph pw).2 := fun c ph pw => by
    rw [binResult_hp_default fm r h1 h2 h3 h4]
  simp only [roiArg, hb]

/-- The whole ROI loop is unchanged when an inactive `half_part` is replaced
by `0`. -/
theorem forwardList_hp_default {cfg : Config} (fm : FeatureMap) (rois : ℕ → ℚ)
    (h1 : cfg.half_part ≠ 1) (h2 : cfg.half_part ≠ 2)
    (h3 : cfg.half_part ≠ 3) (h4 : cfg.half_part ≠ 4) (L : List ℕ) :
    forwardList cfg fm rois L = forwardList { cfg with half_part := 0 } fm rois L := by
  induction L with
  | nil => rfl
  | cons n t ih =>
    simp only [forwardList]
    rw [roiOut_hp_default fm _ h1 h2 h3 h4, roiArg_hp_default fm _ h1 h2 h3 h4, ih]

/-- C10: a `half_part` outside the documented `{0, 1, 2, 3, 4}` hits the
`default:` branch of the `switch` and is accepted without error; the forward
pass discards no half of any ROI and produces exactly the `half_part = 0`
output. -/
theorem half_part_out_of_range (cfg : Config) (fm : FeatureMap) (rois : ℕ → ℚ)
    (numRois : ℕ) (h : cfg.half_part ∉ ([0, 1, 2, 3, 4] : List ℤ)) :
    forward cfg fm rois numRois = forward { cfg with half_part := 0 } fm rois numRois := by
  simp only [List.mem_cons, List.not_mem_nil, or_false] at h
  push_neg at h
  rw [forward, forward,
    forwardList_hp_default fm rois h.2.1 h.2.2.1 h.2.2.2.1 h.2.2.2.2]

/-- If any ROI reached by the loop has an out-of-range batch index, the whole
call aborts with no output. -/
theorem forwardList_abort (cfg : Config) (fm : FeatureMap) (rois : ℕ → ℚ)
    {n : ℕ} {L : List ℕ} (hmem : n ∈ L)
    (hbad : ¬ (0 ≤ batchIdx (recordOf rois n) ∧
      batchIdx (recordOf rois n) < (fm.num : ℤ))) :
    forwardList cfg fm rois L = none := by
  induction L with
  | nil => simp at hmem
  | cons m t ih =>
    rcases List.mem_cons.mp hmem with rfl | hmem'
    · rw [forwardList, if_neg hbad]
    · rw [forwardList]
      by_cases hv : 0 ≤ batchIdx (recordOf rois m) ∧
          batchIdx (recordOf rois m) < (fm.num : ℤ)
      · rw [if_pos hv, ih hmem']
      · rw [if_neg hv]

/-- C6: the forward pass requires `0 <= batch_index < batch_size` for every
ROI; any violation (including the off-by-one `batch_index = batch_size`) is a
fatal precondition failure — the call aborts and produces no output at all,
so the bad ROI is neither clamped nor skipped and no partial results exist. -/
theorem batch_index_precondition (cfg : Config) (fm : FeatureMap) (rois : ℕ → ℚ)
    (numRois n : ℕ) (hn : n < numRois)
    (hbad : ¬ (0 ≤ batchIdx (recordOf rois n) ∧
      batchIdx (recordOf rois n) < (fm.num : ℤ))) :
    forward cfg fm rois numRois = none := by
  rw [forward, forwardList_abort cfg fm rois (List.mem_range.mpr hn) hbad]
  rfl

/-- A successful ROI loop returns one `(output, argmax)` grid pair per ROI
visited, each produced by `roiOut`/`roiArg`. -/
theorem forwardList_shape (cfg : Config) (fm : FeatureMap) (rois : ℕ → ℚ) :
    ∀ (L : List ℕ) (l : List (List (List (List (WithBot ℚ))) × List (List (List ℤ)))),
      forwardList cfg fm rois L = some l →
        l.length = L.length ∧ ∀ p ∈ l, ∃ n,
          p = (roiOut cfg fm (recordOf rois n), roiArg cfg fm (recordOf rois n)) := by
  intro L
  induction L with
  | nil =>
    intro l hl
    rw [forwardList, Option.some.injEq] at hl
    subst hl
    exact ⟨rfl, by simp⟩
  | cons m t ih =>
    intro l hl
    rw [forwardList] at hl
    by_cases hv : 0 ≤ batchIdx (recordOf rois m) ∧
        batchIdx (recordOf rois m) < (fm.num : ℤ)
    · rw [if_pos hv] at hl
      cases ht : forwardList cfg fm rois t with
      | none => rw [ht] at hl; simp at hl
      | some l' =>
        rw [ht, Option.some.injEq] at hl
        subst hl
        obtain ⟨hlen, hmem⟩ := ih l' ht
        refine ⟨by simp [hlen], ?_⟩
        intro p hp
        rcases List.mem_cons.mp hp with rfl | hp'
        · exact ⟨m, rfl⟩
        · exact hmem p hp'
    · rw [if_neg hv] at hl
      exact absurd hl (by simp)

/-- Each per-ROI output grid has shape `channels × pooled_h × pooled_w`. -/
theorem roiOut_shape (cfg : Config) (fm : FeatureMap) (r : RoiRecord) :
    Grid3Shape (roiOut cfg fm r) fm.channels cfg.pooled_h cfg.pooled_w := by
  simp [roiOut, Grid3Shape]

/-- Each per-ROI argmax grid has shape `channels × pooled_h × pooled_w`. -/
theorem roiArg_shape (cfg : Config) (fm : FeatureMap) (r : RoiRecord) :
    Grid3Shape (roiArg cfg fm r) fm.channels cfg.pooled_h cfg.pooled_w := by
  simp [roiArg, Grid3Shape]

/-- C8: a successful forward call produces the pooled output and the argmax
array together, both of shape exactly
`(num_rois, channels, pooled_height, pooled_width)`; `num_rois = 0` yields
empty but correctly shaped outputs, and the two arrays always have the same
shape. -/
theorem shape_law (cfg : Config) (fm : FeatureMap) (rois : ℕ → ℚ) (numRois : ℕ)
    {o : List (List (List (List (WithBot ℚ))))} {a : List (List (List (List ℤ)))}
    (h : forward cfg fm rois numRois = some (o, a)) :
    o.length = numRois ∧ a.length = numRois ∧
      (∀ g ∈ o, Grid3Shape g fm.channels cfg.pooled_h cfg.pooled_w) ∧
      (∀ g ∈ a, Grid3Shape g fm.channels cfg.pooled_h cfg.pooled_w) := by
  rw [forward] at h
  cases hfl : forwardList cfg fm rois (List.range numRois) with
  | none => rw [hfl] at h; simp at h
  | some l =>
    rw [hfl] at h
    simp only [Option.map_some', Option.some.injEq, Prod.mk.injEq] at h
    obtain ⟨ho, ha⟩ := h
    obtain ⟨hlen, hmem⟩ := forwardList_shape cfg fm rois (List.range numRois) l hfl
    subst ho
    subst ha
    refine ⟨by simp [hlen], by simp [hlen], ?_, ?_⟩
    · intro g hg
      obtain ⟨p, hp, rfl⟩ := List.mem_map.mp hg
      obtain ⟨n, rfl⟩ := hmem p hp
      exact roiOut_shape cfg fm (recordOf rois n)
    · intro g hg
      obtain ⟨p, hp, rfl⟩ := List.mem_map.mp hg
      obtain ⟨n, rfl⟩ := hmem p hp
      exact roiArg_shape cfg fm (recordOf rois n)

/-- The `-FLT_MAX` sentinel is below the `0` written for masked cells. -/
theorem botLtZeroQ : (⊥ : WithBot ℚ) < 0 := WithBot.bot_lt_coe 0

/-- Comparing the stored `0` with a candidate value. -/
theorem zeroLtCoeQ (q : ℚ) : ((0 : WithBot ℚ) < (q : WithBot ℚ)) ↔ 0 < q := by
  rw [← WithBot.coe_zero, WithBot.coe_lt_coe]

/-- Comparing a stored value with the masked candidate `0`. -/
theorem coeLtZeroQ (q : ℚ) : ((q : WithBot ℚ) < 0) ↔ q < 0 := by
  rw [← WithBot.coe_zero, WithBot.coe_lt_coe]

/-- In a non-empty bin whose cells are all inside the mask rectangle (with
masking enabled), every comparison value is the synthetic `0`, so the first
scanned cell `(hstart, wstart)` wins: the stored pair is
`(0, hstart * width + wstart)`. -/
theorem binResult_fully_masked (cfg : Config) (fm : FeatureMap) (r : RoiRecord)
    (c ph pw : ℕ) (hne : ¬ isEmptyBin cfg fm r ph pw) (hm : 0 < cfg.mask_scale)
    (hall : ∀ cell ∈ cellListOf cfg fm r ph pw, MaskCovers cfg r cell) :
    binResult cfg fm r c ph pw
      = (((0 : ℚ) : WithBot ℚ),
         flatIdx fm (binHstart cfg fm r ph, binWstart cfg fm r pw)) := by
  obtain ⟨i, hi, heq, hfirst, _⟩ := binResult_spec cfg fm r c ph pw hne
  have hmem := List.get_mem (cellListOf cfg fm r ph pw) i hi
  have hi0 : i = 0 := by
    by_contra h0
    have h0' : 0 < i := Nat.pos_of_ne_zero h0
    have hlen0 : 0 < (cellListOf cfg fm r ph pw).length := by omega
    have hlt := hfirst 0 hlen0 h0'
    have hm0 : maskedVal cfg fm r c ((cellListOf cfg fm r ph pw).get ⟨0, hlen0⟩) = 0 := by
      rw [maskedVal,
        if_pos ⟨hm, hall _ (List.get_mem (cellListOf cfg fm r ph pw) 0 hlen0)⟩]
    have hmi : maskedVal cfg fm r c ((cellListOf cfg fm r ph pw).get ⟨i, hi⟩) = 0 := by
      rw [maskedVal, if_pos ⟨hm, hall _ hmem⟩]
    rw [hm0, hmi] at hlt
    exact lt_irrefl 0 hlt
  subst hi0
  have hne' := hne
  rw [isEmptyBin] at hne'
  push_neg at hne'
  obtain ⟨rest, hcons⟩ := cellList_eq_cons hne'.1 hne'.2
  have hL : cellListOf cfg fm r ph pw
      = (binHstart cfg fm r ph, binWstart cfg fm r pw) :: rest := by
    rw [cellListOf]; exact hcons
  have hget0 : (cellListOf cfg fm r ph pw).get ⟨0, hi⟩
      = (binHstart cfg fm r ph, binWstart cfg fm r pw) := by
    have := List.get_of_eq hL ⟨0, hi⟩
    simpa using this
  have hmv0 : maskedVal cfg fm r c ((cellListOf cfg fm r ph pw).get ⟨0, hi⟩) = 0 := by
    rw [maskedVal, if_pos ⟨hm, hall _ hmem⟩]
  rw [heq, hmv0, hget0]

/-- C3 (amended): with `mask_scale > 0`, a cell inside the mask rectangle can
become a bin's argmax even when not every cell of the window is masked — but
only if the stored pooled value is the synthetic `0` and no unmasked cell of
the window has a positive raw value; when every cell of the window is masked,
the pooled value is `0` and the argmax is the first scanned cell
`(hstart, wstart)` (not `-1`, unlike the true-empty case). -/
theorem masking_law_amended (cfg : Config) (fm : FeatureMap) (r : RoiRecord)
    (c ph pw : ℕ) (hne : ¬ isEmptyBin cfg fm r ph pw) (hm : 0 < cfg.mask_scale) :
    (MaskCovers cfg r (argCell fm (binResult cfg fm r c ph pw).2) →
      (binResult cfg fm r c ph pw).1 = ((0 : ℚ) : WithBot ℚ) ∧
        ∀ cell ∈ cellListOf cfg fm r ph pw, ¬ MaskCovers cfg r cell →
          fm.data (batchIdx r).toNat c cell.1.toNat cell.2.toNat ≤ 0) ∧
    ((∀ cell ∈ cellListOf cfg fm r ph pw, MaskCovers cfg r cell) →
      binResult cfg fm r c ph pw
        = (((0 : ℚ) : WithBot ℚ),
           flatIdx fm (binHstart cfg fm r ph, binWstart cfg fm r pw))) := by
  obtain ⟨i, hi, heq, _, hall⟩ := binResult_spec cfg fm r c ph pw hne
  have hmem := List.get_mem (cellListOf cfg fm r ph pw) i hi
  have hbnd := cellListOf_bounds hmem
  obtain ⟨hpos, hdiv, hmod⟩ := flatIdx_decode fm hbnd.1 hbnd.2.2.1 hbnd.2.2.2
  have h2 : (binResult cfg fm r c ph pw).2
      = flatIdx fm ((cellListOf cfg fm r ph pw).get ⟨i, hi⟩) := by rw [heq]
  have hcell : argCell fm (binResult cfg fm r c ph pw).2
      = (cellListOf cfg fm r ph pw).get ⟨i, hi⟩ := by
    rw [h2, argCell, Prod.mk.injEq]
    constructor
    · rw [hdiv]; omega
    · rw [hmod]; omega
  constructor
  · intro hcov
    rw [hcell] at hcov
    have hmv : maskedVal cfg fm r c ((cellListOf cfg fm r ph pw).get ⟨i, hi⟩) = 0 := by
      rw [maskedVal, if_pos ⟨hm, hcov⟩]
    constructor
    · rw [heq, hmv]
    · intro cell hcellmem hnotcov
      obtain ⟨⟨j, hj⟩, hget⟩ := List.mem_iff_get.mp hcellmem
      have hle := hall j hj
      rw [hget, hmv] at hle
      rw [maskedVal, if_neg (fun hc => hnotcov hc.2)] at hle
      exact hle
  · exact binResult_fully_masked cfg fm r c ph pw hne hm

/-- C4 (amended): a non-empty bin all of whose cells are masked does NOT fall
back to the never-updated sentinel: the masked comparison value `0` beats
`-infinity` at the first scanned cell, so the pooled value is `0` and the
argmax is that first cell's flat index, never `-1` — the two paths do not
converge on the empty-bin result. -/
theorem fully_masked_amended (cfg : Config) (fm : FeatureMap) (r : RoiRecord)
    (c ph pw : ℕ) (hne : ¬ isEmptyBin cfg fm r ph pw) (hm : 0 < cfg.mask_scale)
    (hall : ∀ cell ∈ cellListOf cfg fm r ph pw, MaskCovers cfg r cell) :
    binResult cfg fm r c ph pw
        = (((0 : ℚ) : WithBot ℚ),
           flatIdx fm (binHstart cfg fm r ph, binWstart cfg fm r pw)) ∧
      (binResult cfg fm r c ph pw).2 ≠ -1 := by
  have hres := binResult_fully_masked cfg fm r c ph pw hne hm hall
  refine ⟨hres, ?_⟩
  have hne' := hne
  rw [isEmptyBin] at hne'
  push_neg at hne'
  have hs0 : 0 ≤ binHstart cfg fm r ph :=
    le_min (le_max_right _ _) (Int.natCast_nonneg _)
  have hw0 : 0 ≤ binWstart cfg fm r pw :=
    le_min (le_max_right _ _) (Int.natCast_nonneg _)
  have hwW : binWstart cfg fm r pw < (fm.width : ℤ) :=
    lt_of_lt_of_le hne'.2 (min_le_right _ _)
  have hfl := (@flatIdx_decode fm (binHstart cfg fm r ph, binWstart cfg fm r pw)
    hs0 hw0 hwW).1
  rw [hres]
  omega

/-- C3 counterexample: with `mask_scale = 1/5 > 0`, the bin window is
`{(0,0), (0,1)}`, cell `(0,0)` is inside the mask rectangle and `(0,1)` is
not, yet the stored argmax is exactly the masked cell `(0,0)` (the masked `0`
beats the unmasked raw value `-3`) — a masked cell becomes the argmax even
though not every cell of the window is masked. -/
theorem masking_law_counterexample :
    0 < cfgA.mask_scale ∧
      ¬ isEmptyBin cfgA fmA rA 0 0 ∧
      (binResult cfgA fmA rA 0 0 0).2 = flatIdx fmA (0, 0) ∧
      MaskCovers cfgA rA (0, 0) ∧
      ((0 : ℤ), (1 : ℤ)) ∈ cellListOf cfgA fmA rA 0 0 ∧
      ¬ MaskCovers cfgA rA (0, 1) := by
  refine ⟨by norm_num [cfgA], ?_, ?_, ?_, ?_, ?_⟩ <;>
    norm_num [binResult, isEmptyBin, binHstart, binHend, binWstart, binWend,
      bin_size_h, bin_size_w, roi_height, roi_width, roi_start_w, roi_start_h,
      roi_end_w, roi_end_h, roundQ, xx1Of, xx2Of, yy1Of, yy2Of, xcOf, ycOf,
      wOf, hOf, x1Of, x2Of, y1Of, y2Of, cfgA, rA, fmA, ceil_eval, cellListOf,
      cellList, binFold, binStep, maskedVal, MaskCovers, mask_start_w,
      mask_start_h, mask_end_w, mask_end_h, mx1Of, mx2Of, my1Of, my2Of,
      flatIdx, batchIdx, truncQ, List.range_succ, List.range_zero,
      (show Int.toNat 0 = 0 from rfl), (show Int.toNat 1 = 1 from rfl),
      (show Int.toNat 2 = 2 from rfl),
      List.map_cons, List.map_nil, List.mem_cons,
      List.foldl_cons, List.foldl_nil, List.flatMap_cons, List.flatMap_nil,
      WithBot.bot_lt_coe, WithBot.coe_lt_coe, Prod.mk.injEq, botLtZeroQ,
      zeroLtCoeQ, coeLtZeroQ]

/-- C4 counterexample: with `mask_scale = 1` every cell of the non-empty
window `{(0,0), (0,1)}` lies inside the mask rectangle, yet the forward pass
does NOT reach `argmax = -1` by the never-updated fallback: the masked `0`
beats the `-infinity` sentinel at the first cell, so the stored argmax is `0`
(the first scanned cell), not `-1`. -/
theorem fully_masked_counterexample :
    ¬ isEmptyBin cfgB fmB rB 0 0 ∧
      0 < cfgB.mask_scale ∧
      (∀ cell ∈ cellListOf cfgB fmB rB 0 0, MaskCovers cfgB rB cell) ∧
      (binResult cfgB fmB rB 0 0 0).1 = ((0 : ℚ) : WithBot ℚ) ∧
      (binResult cfgB fmB rB 0 0 0).2 = 0 ∧
      (binResult cfgB fmB rB 0 0 0).2 ≠ -1 := by
  refine ⟨?_, by norm_num [cfgB], ?_, ?_, ?_, ?_⟩ <;>
    norm_num [binResult, isEmptyBin, binHstart, binHend, binWstart, binWend,
      bin_size_h, bin_size_w, roi_height, roi_width, roi_start_w, roi_start_h,
      roi_end_w, roi_end_h, roundQ, xx1Of, xx2Of, yy1Of, yy2Of, xcOf, ycOf,
      wOf, hOf, x1Of, x2Of, y1Of, y2Of, cfgB, rB, fmB, ceil_eval, cellListOf,
      cellList, binFold, binStep, maskedVal, MaskCovers, mask_start_w,
      mask_start_h, mask_end_w, mask_end_h, mx1Of, mx2Of, my1Of, my2Of,
      flatIdx, batchIdx, truncQ, List.range_succ, List.range_zero,
      (show Int.toNat 0 = 0 from rfl), (show Int.toNat 1 = 1 from rfl),
      (show Int.toNat 2 = 2 from rfl),
      List.map_cons, List.map_nil, List.mem_cons,
      List.foldl_cons, List.foldl_nil, List.flatMap_cons, List.flatMap_nil,
      WithBot.bot_lt_coe, WithBot.coe_lt_coe, Prod.mk.injEq, botLtZeroQ,
      zeroLtCoeQ, coeLtZeroQ]

/-- Witness for `empty_bin_law` at a concrete input. -/
theorem empty_bin_law_witness :
    ((binResult cfgW fmW rW 0 0 0).2 = -1 ↔ isEmptyBin cfgW fmW rW 0 0) ∧
      ((binResult cfgW fmW rW 0 0 0).2 = -1 →
        (binResult cfgW fmW rW 0 0 0).1 = ((0 : ℚ) : WithBot ℚ)) :=
  empty_bin_law cfgW fmW rW 0 0 0

/-- Witness for `argmax_consistency` at a concrete input. -/
theorem argmax_consistency_witness :
    (0 ≤ batchIdx rW ∧ batchIdx rW < (fmW.num : ℤ)) ∧
      ¬ isEmptyBin cfgW fmW rW 0 0 ∧
      (0 ≤ (binResult cfgW fmW rW 0 0 0).2 ∧
        (¬ (0 < cfgW.mask_scale ∧
              MaskCovers cfgW rW (argCell fmW (binResult cfgW fmW rW 0 0 0).2)) →
          (binResult cfgW fmW rW 0 0 0).1
            = ((fmW.data (batchIdx rW).toNat 0
                  ((binResult cfgW fmW rW 0 0 0).2.toNat / fmW.width)
                  ((binResult cfgW fmW rW 0 0 0).2.toNat % fmW.width) : ℚ) : WithBot ℚ)) ∧
        ((0 < cfgW.mask_scale ∧
            MaskCovers cfgW rW (argCell fmW (binResult cfgW fmW rW 0 0 0).2)) →
          (binResult cfgW fmW rW 0 0 0).1 = ((0 : ℚ) : WithBot ℚ))) := by
  have h1 : 0 ≤ batchIdx rW ∧ batchIdx rW < (fmW.num : ℤ) := by
    norm_num [batchIdx, truncQ, rW, fmW]
  have h2 : ¬ isEmptyBin cfgW fmW rW 0 0 := by
    norm_num [isEmptyBin, binHstart, binHend, binWstart, binWend,
      bin_size_h, bin_size_w, roi_height, roi_width, roi_start_w, roi_start_h,
      roi_end_w, roi_end_h, roundQ, xx1Of, xx2Of, yy1Of, yy2Of, xcOf, ycOf,
      wOf, hOf, x1Of, x2Of, y1Of, y2Of, cfgW, rW, fmW, ceil_eval]
  exact ⟨h1, h2, argmax_consistency cfgW fmW rW 0 0 0 h1 h2⟩

/-- Witness for `first_max_tie_break` at a concrete input. -/
theorem first_max_tie_break_witness :
    ¬ isEmptyBin cfgW fmW rW 0 0 ∧
      (∃ i, ∃ hi : i < (cellListOf cfgW fmW rW 0 0).length,
        binResult cfgW fmW rW 0 0 0
            = ((maskedVal cfgW fmW rW 0 ((cellListOf cfgW fmW rW 0 0).get ⟨i, hi⟩) : WithBot ℚ),
               flatIdx fmW ((cellListOf cfgW fmW rW 0 0).get ⟨i, hi⟩)) ∧
          (∀ j, ∀ hj : j < (cellListOf cfgW fmW rW 0 0).length, j < i →
            maskedVal cfgW fmW rW 0 ((cellListOf cfgW fmW rW 0 0).get ⟨j, hj⟩)
              < maskedVal cfgW fmW rW 0 ((cellListOf cfgW fmW rW 0 0).get ⟨i, hi⟩)) ∧
          (∀ j, ∀ hj : j < (cellListOf cfgW fmW rW 0 0).length,
            maskedVal cfgW fmW rW 0 ((cellListOf cfgW fmW rW 0 0).get ⟨j, hj⟩)
              ≤ maskedVal cfgW fmW rW 0 ((cellListOf cfgW fmW rW 0 0).get ⟨i, hi⟩))) := by
  have h2 : ¬ isEmptyBin cfgW fmW rW 0 0 := by
    norm_num [isEmptyBin, binHstart, binHend, binWstart, binWend,
      bin_size_h, bin_size_w, roi_height, roi_width, roi_start_w, roi_start_h,
      roi_end_w, roi_end_h, roundQ, xx1Of, xx2Of, yy1Of, yy2Of, xcOf, ycOf,
      wOf, hOf, x1Of, x2Of, y1Of, y2Of, cfgW, rW, fmW, ceil_eval]
  exact ⟨h2, first_max_tie_break cfgW fmW rW 0 0 0 h2⟩

/-- Witness for `masking_law_amended` at a concrete input. -/
theorem masking_law_amended_witness :
    ¬ isEmptyBin cfgB fmB rB 0 0 ∧
      0 < cfgB.mask_scale ∧
      ((MaskCovers cfgB rB (argCell fmB (binResult cfgB fmB rB 0 0 0).2) →
        (binResult cfgB fmB rB 0 0 0).1 = ((0 : ℚ) : WithBot ℚ) ∧
          ∀ cell ∈ cellListOf cfgB fmB rB 0 0, ¬ MaskCovers cfgB rB cell →
            fmB.data (batchIdx rB).toNat 0 cell.1.toNat cell.2.toNat ≤ 0) ∧
      ((∀ cell ∈ cellListOf cfgB fmB rB 0 0, MaskCovers cfgB rB cell) →
        binResult cfgB fmB rB 0 0 0
          = (((0 : ℚ) : WithBot ℚ),
             flatIdx fmB (binHstart cfgB fmB rB 0, binWstart cfgB fmB rB 0)))) := by
  have hne : ¬ isEmptyBin cfgB fmB rB 0 0 := by
    norm_num [isEmptyBin, binHstart, binHend, binWstart, binWend,
      bin_size_h, bin_size_w, roi_height, roi_width, roi_start_w, roi_start_h,
      roi_end_w, roi_end_h, roundQ, xx1Of, xx2Of, yy1Of, yy2Of, xcOf, ycOf,
      wOf, hOf, x1Of, x2Of, y1Of, y2Of, cfgB, rB, fmB, ceil_eval]
  have hm : 0 < cfgB.mask_scale := by norm_num [cfgB]
  exact ⟨hne, hm, masking_law_amended cfgB fmB rB 0 0 0 hne hm⟩

/-- Witness for `fully_masked_amended` at a concrete input. -/
theorem fully_masked_amended_witness :
    ¬ isEmptyBin cfgB fmB rB 0 0 ∧
      0 < cfgB.mask_scale ∧
      (∀ cell ∈ cellListOf cfgB fmB rB 0 0, MaskCovers cfgB rB cell) ∧
      (binResult cfgB fmB rB 0 0 0
          = (((0 : ℚ) : WithBot ℚ),
             flatIdx fmB (binHstart cfgB fmB rB 0, binWstart cfgB fmB rB 0)) ∧
        (binResult cfgB fmB rB 0 0 0).2 ≠ -1) := by
  have hne : ¬ isEmptyBin cfgB fmB rB 0 0 := by
    norm_num [isEmptyBin, binHstart, binHend, binWstart, binWend,
      bin_size_h, bin_size_w, roi_height, roi_width, roi_start_w, roi_start_h,
      roi_end_w, roi_end_h, roundQ, xx1Of, xx2Of, yy1Of, yy2Of, xcOf, ycOf,
      wOf, hOf, x1Of, x2Of, y1Of, y2Of, cfgB, rB, fmB, ceil_eval]
  have hm : 0 < cfgB.mask_scale := by norm_num [cfgB]
  have hall : ∀ cell ∈ cellListOf cfgB fmB rB 0 0, MaskCovers cfgB rB cell := by
    norm_num [cellListOf, cellList, binHstart, binHend, binWstart, binWend,
      bin_size_h, bin_size_w, roi_height, roi_width, roi_start_w, roi_start_h,
      roi_end_w, roi_end_h, roundQ, xx1Of, xx2Of, yy1Of, yy2Of, xcOf, ycOf,
      wOf, hOf, x1Of, x2Of, y1Of, y2Of, cfgB, rB, fmB, ceil_eval, MaskCovers,
      mask_start_w, mask_start_h, mask_end_w, mask_end_h, mx1Of, mx2Of, my1Of,
      my2Of, List.range_succ, List.range_zero,
      (show Int.toNat 0 = 0 from rfl), (show Int.toNat 1 = 1 from rfl),
      (show Int.toNat 2 = 2 from rfl),
      List.map_cons, List.map_nil, List.mem_cons,
      List.flatMap_cons, List.flatMap_nil, Prod.mk.injEq]
  exact ⟨hne, hm, hall, fully_masked_amended cfgB fmB rB 0 0 0 hne hm hall⟩

/-- Witness for `half_part_law` at a concrete input. -/
theorem half_part_law_witness :
    xx2Of cfgW1 rW - xx1Of cfgW1 rW
        = (xx2Of { cfgW1 with half_part := 0 } rW
            - xx1Of { cfgW1 with half_part := 0 } rW) / 2
      ∧ (xx1Of cfgW1 rW = xcOf rW ∨ xx2Of cfgW1 rW = xcOf rW) :=
  (half_part_law cfgW1 rW).1 (Or.inl rfl)

/-- Witness for `batch_index_precondition` at a concrete input (the
off-by-one `batch_index = batch_size` scenario). -/
theorem batch_index_precondition_witness :
    (0 : ℕ) < 1 ∧
      ¬ (0 ≤ batchIdx (recordOf roisB 0) ∧
        batchIdx (recordOf roisB 0) < (fmW.num : ℤ)) ∧
      forward cfgW fmW roisB 1 = none := by
  have hn : (0 : ℕ) < 1 := Nat.one_pos
  have hbad : ¬ (0 ≤ batchIdx (recordOf roisB 0) ∧
      batchIdx (recordOf roisB 0) < (fmW.num : ℤ)) := by
    norm_num [batchIdx, truncQ, recordOf, roisB, fmW]
  exact ⟨hn, hbad, batch_index_precondition cfgW fmW roisB 1 0 hn hbad⟩

/-- Witness for `roi_read_order` at a concrete input. -/
theorem roi_read_order_witness :
    cfgW.roi_scale = 1 ∧ cfgW.half_part = 0 ∧
      (batchIdx (recordOf roisW 0) = truncQ (roisW (5 * 0)) ∧
        x1Of (recordOf roisW 0) = roisW (5 * 0 + 1) ∧
        x2Of (recordOf roisW 0) = roisW (5 * 0 + 2) ∧
        y1Of (recordOf roisW 0) = roisW (5 * 0 + 3) ∧
        y2Of (recordOf roisW 0) = roisW (5 * 0 + 4) ∧
        xx1Of cfgW (recordOf roisW 0) = roisW (5 * 0 + 1) ∧
        xx2Of cfgW (recordOf roisW 0) = roisW (5 * 0 + 2) ∧
        yy1Of cfgW (recordOf roisW 0) = roisW (5 * 0 + 3) ∧
        yy2Of cfgW (recordOf roisW 0) = roisW (5 * 0 + 4)) :=
  ⟨rfl, rfl, roi_read_order cfgW roisW 0 rfl rfl⟩

/-- Witness for `half_part_out_of_range` at a concrete input. -/
theorem half_part_out_of_range_witness :
    cfgHP5.half_part ∉ ([0, 1, 2, 3, 4] : List ℤ) ∧
      forward cfgHP5 fmW roisW 1
        = forward { cfgHP5 with half_part := 0 } fmW roisW 1 := by
  have h : cfgHP5.half_part ∉ ([0, 1, 2, 3, 4] : List ℤ) := by decide
  exact ⟨h, half_part_out_of_range cfgHP5 fmW roisW 1 h⟩

/-- Witness for `shape_law` at a concrete input. -/
theorem shape_law_witness :
    forward cfgW fmW roisW 1
        = some ([roiOut cfgW fmW (recordOf roisW 0)],
                [roiArg cfgW fmW (recordOf roisW 0)]) ∧
      ([roiOut cfgW fmW (recordOf roisW 0)].length = 1 ∧
        [roiArg cfgW fmW (recordOf roisW 0)].length = 1 ∧
        (∀ g ∈ [roiOut cfgW fmW (recordOf roisW 0)],
          Grid3Shape g fmW.channels cfgW.pooled_h cfgW.pooled_w) ∧
        (∀ g ∈ [roiArg cfgW fmW (recordOf roisW 0)],
          Grid3Shape g fmW.channels cfgW.pooled_h cfgW.pooled_w)) := by
  have hfwd : forward cfgW fmW roisW 1
      = some ([roiOut cfgW fmW (recordOf roisW 0)],
              [roiArg cfgW fmW (recordOf roisW 0)]) := by
    norm_num [forward, forwardList, batchIdx, truncQ, recordOf, roisW, fmW,
      List.range_succ, List.range_zero]
  exact ⟨hfwd, shape_law cfgW fmW roisW 1 hfwd⟩
